import Mathlib

/-!
Shallow embedding of `src/oauth_helper.py` from the stellantis-oauth-helper
repository, together with theorems about its redirect-interception and
configuration-handling logic.

Python strings are modelled as Lean `String`s (sequences of Unicode code
points, matching Python `str` semantics); the byte-level work inside
percent-decoding uses `Nat` values below 256.  The library calls the
source relies on (`str.startswith`, `urllib.parse.urlparse`,
`urllib.parse.parse_qs`, `urllib.parse.unquote`, `sorted`, `str.lower`)
are embedded following CPython's documented behaviour.
-/

namespace OAuthHelper

/-- Python `s.startswith(p)` on code-point lists (case-sensitive exact
front-of-string match). -/
def startswith : List Char → List Char → Bool
  | _, [] => true
  | [], _ :: _ => false
  | c :: s, p :: ps => c == p && startswith s ps

/-- Python `url_str.startswith(pat)` for `String`s. -/
def strStartswith (s pat : String) : Bool :=
  startswith s.data pat.data

/-- The characters strictly before the first occurrence of `ch`
(the whole list when `ch` is absent). -/
def beforeChar (ch : Char) : List Char → List Char
  | [] => []
  | c :: s => if c == ch then [] else c :: beforeChar ch s

/-- The characters strictly after the first occurrence of `ch`
(empty when `ch` is absent). -/
def afterChar (ch : Char) : List Char → List Char
  | [] => []
  | c :: s => if c == ch then s else afterChar ch s

/-- CPython's `urlsplit` first deletes every tab, carriage return and
newline from the URL. -/
def removeUnsafe (s : List Char) : List Char :=
  s.filter (fun c => !(c == '\t' || c == '\r' || c == '\n'))

/-- The `query` component produced by `urllib.parse.urlparse(url_str)`:
after removal of unsafe characters the fragment is everything after the
first hash sign, and the query is everything after the first question
mark of what remains.  (Scheme and netloc splitting never move a
question mark or hash sign, so they do not affect the query.) -/
def urlQuery (url : List Char) : List Char :=
  afterChar '?' (beforeChar '#' (removeUnsafe url))

/-- Python `s.split(sep)` for a one-character separator (no limit). -/
def splitSep (sep : Char) : List Char → List (List Char)
  | [] => [[]]
  | c :: s =>
    if c == sep then [] :: splitSep sep s
    else
      match splitSep sep s with
      | [] => [[c]]
      | f :: rest => (c :: f) :: rest

/-- `qs.split("&") if qs else []`, the field list used by
`urllib.parse.parse_qsl` (separator `&`, the modern CPython default). -/
def queryFields (qs : List Char) : List (List Char) :=
  if qs.isEmpty then [] else splitSep '&' qs

/-- Python `s.split(sep, 1)`: split at the first occurrence of `sep`;
`none` when `sep` does not occur. -/
def splitOnce (sep : Char) : List Char → Option (List Char × List Char)
  | [] => none
  | c :: s =>
    if c == sep then some ([], s)
    else (splitOnce sep s).map (fun p => (c :: p.1, p.2))

/-- The `.replace(Chr.plus, Chr.space)` step `parse_qsl` applies to names and
values before unquoting. -/
def plusToSpace (s : List Char) : List Char :=
  s.map (fun c => if c == '+' then ' ' else c)

/-- Value of a hexadecimal digit, `none` for non-hex characters, working
on code points: 48 to 57 are the decimal digits, 65 to 70 the upper-case
letters A to F, 97 to 102 the lower-case ones (CPython's `_hextobyte`
accepts both cases). -/
def hexDigitVal (c : Char) : Option Nat :=
  let n := c.toNat
  if 48 ≤ n ∧ n ≤ 57 then some (n - 48)
  else if 65 ≤ n ∧ n ≤ 70 then some (n - 55)
  else if 97 ≤ n ∧ n ≤ 102 then some (n - 87)
  else none

/-- Worker for `pctDecode`; the fuel argument (instantiated with the
length of the input, which bounds the number of steps because every step
consumes at least one character) only makes the recursion structural. -/
def pctDecodeFuel : Nat → List Char → List Nat
  | 0, _ => []
  | _ + 1, [] => []
  | fuel + 1, c :: rest =>
    if c == '%' then
      match rest with
      | h1 :: h2 :: rest2 =>
        match hexDigitVal h1, hexDigitVal h2 with
        | some a, some b => (a * 16 + b) :: pctDecodeFuel fuel rest2
        | _, _ => 37 :: pctDecodeFuel fuel rest
      | _ => 37 :: pctDecodeFuel fuel rest
    else c.toNat :: pctDecodeFuel fuel rest

/-- Percent-decoding of an all-ASCII run into bytes, as in CPython's
`_unquote_impl`: a percent sign followed by two hex digits becomes one
byte; an invalid escape leaves the percent sign literal and scanning
resumes at the next character; other characters pass through as their
(ASCII) byte. -/
def pctDecode (l : List Char) : List Nat :=
  pctDecodeFuel l.length l

/-- UTF-8 decoding of a byte list with `errors="replace"`: each maximal
subpart of an ill-formed subsequence is replaced by one U+FFFD, following
CPython's decoder. -/
def utf8DecodeReplace : List Nat → List Char
  | [] => []
  | b :: rest =>
    if b ≤ 127 then Char.ofNat b :: utf8DecodeReplace rest
    else if 194 ≤ b ∧ b ≤ 223 then
      match rest with
      | [] => [Char.ofNat 65533]
      | c :: r2 =>
        if 128 ≤ c ∧ c ≤ 191 then
          Char.ofNat ((b - 192) * 64 + (c - 128)) :: utf8DecodeReplace r2
        else Char.ofNat 65533 :: utf8DecodeReplace (c :: r2)
    else if 224 ≤ b ∧ b ≤ 239 then
      let lo := if b = 224 then 160 else 128
      let hi := if b = 237 then 159 else 191
      match rest with
      | [] => [Char.ofNat 65533]
      | c :: r2 =>
        if lo ≤ c ∧ c ≤ hi then
          match r2 with
          | [] => [Char.ofNat 65533]
          | d :: r3 =>
            if 128 ≤ d ∧ d ≤ 191 then
              Char.ofNat ((b - 224) * 4096 + (c - 128) * 64 + (d - 128)) ::
                utf8DecodeReplace r3
            else Char.ofNat 65533 :: utf8DecodeReplace (d :: r3)
        else Char.ofNat 65533 :: utf8DecodeReplace (c :: r2)
    else if 240 ≤ b ∧ b ≤ 244 then
      let lo := if b = 240 then 144 else 128
      let hi := if b = 244 then 143 else 191
      match rest with
      | [] => [Char.ofNat 65533]
      | c :: r2 =>
        if lo ≤ c ∧ c ≤ hi then
          match r2 with
          | [] => [Char.ofNat 65533]
          | d :: r3 =>
            if 128 ≤ d ∧ d ≤ 191 then
              match r3 with
              | [] => [Char.ofNat 65533]
              | e :: r4 =>
                if 128 ≤ e ∧ e ≤ 191 then
                  Char.ofNat ((b - 240) * 262144 + (c - 128) * 4096 +
                      (d - 128) * 64 + (e - 128)) :: utf8DecodeReplace r4
                else Char.ofNat 65533 :: utf8DecodeReplace (e :: r4)
            else Char.ofNat 65533 :: utf8DecodeReplace (d :: r3)
        else Char.ofNat 65533 :: utf8DecodeReplace (c :: r2)
    else Char.ofNat 65533 :: utf8DecodeReplace rest

/-- Worker for `unquote`: accumulate the current maximal ASCII run (in
reverse) and flush it through percent-decoding plus UTF-8 decoding when a
non-ASCII character or the end of the string is reached.  Non-ASCII
characters pass through unchanged, as in CPython's `unquote`. -/
def unquoteGo : List Char → List Char → List Char
  | acc, [] => utf8DecodeReplace (pctDecode acc.reverse)
  | acc, c :: s =>
    if c.toNat < 128 then unquoteGo (c :: acc) s
    else utf8DecodeReplace (pctDecode acc.reverse) ++ c :: unquoteGo [] s

/-- `urllib.parse.unquote` with the default `encoding="utf-8"` and
`errors="replace"`. -/
def unquote (s : List Char) : List Char :=
  unquoteGo [] s

/-- Processing of one field of the query string by
`urllib.parse.parse_qsl` with the default
`keep_blank_values=False, strict_parsing=False`: empty fields are
skipped, fields without an equals sign are skipped, fields whose value is
empty are skipped, and otherwise name and value get the plus-to-space
replacement followed by unquoting. -/
def parsePair (field : List Char) : Option (String × String) :=
  if field.isEmpty then none
  else
    match splitOnce '=' field with
    | none => none
    | some (n, v) =>
      if v.isEmpty then none
      else some (String.mk (unquote (plusToSpace n)), String.mk (unquote (plusToSpace v)))

/-- `urllib.parse.parse_qsl(qs)` with default arguments. -/
def parse_qsl (qs : List Char) : List (String × String) :=
  (queryFields qs).filterMap parsePair

/-- One step of the dictionary construction in `urllib.parse.parse_qs`:
append the value to the entry of the key when present, otherwise add a
new entry at the end (Python dicts preserve insertion order). -/
def qsInsert : List (String × List String) → String → String → List (String × List String)
  | [], k, v => [(k, [v])]
  | (k0, vs) :: rest, k, v =>
    if k0 == k then (k0, vs ++ [v]) :: rest
    else (k0, vs) :: qsInsert rest k v

/-- `urllib.parse.parse_qs(qs)` with default arguments, as an
insertion-ordered association list from parameter name to its list of
values. -/
def parse_qs (qs : List Char) : List (String × List String) :=
  (parse_qsl qs).foldl (fun d p => qsInsert d p.1 p.2) []

/-- Python `d.get(k, dflt)` on the dictionary produced by `parse_qs`. -/
def dictGet (d : List (String × List String)) (k : String) (dflt : List String) :
    List String :=
  match d.find? (fun p => p.1 == k) with
  | some p => p.2
  | none => dflt

/-- The code extraction inside `CustomWebPage.acceptNavigationRequest`:
`parsed = urlparse(url_str); params = parse_qs(parsed.query);`
`code = params.get("code", [""])[0]`. -/
def extractCode (url_str : String) : String :=
  let parsed_query := urlQuery url_str.data
  let params := parse_qs parsed_query
  (dictGet params "code" [""]).getD 0 ""

/-- Result of one call of `CustomWebPage.acceptNavigationRequest`:
either the navigation is vetoed (`return False`) after forwarding the
extracted code to `OAuthBrowser.show_oauth_popup`, or the decision is
delegated unchanged to the default handler
(`super().acceptNavigationRequest(url, nav_type, is_main_frame)`). -/
inductive NavAction where
  | veto (code : String)
  | delegate (url : String) (nav_type : Nat) (is_main_frame : Bool)
  deriving DecidableEq

/-- `CustomWebPage.acceptNavigationRequest(url, nav_type, is_main_frame)`
where `url_str = url.toString()` is taken as the input string and
`self.scheme` is the configured custom scheme. -/
def acceptNavigationRequest (scheme url_str : String) (nav_type : Nat)
    (is_main_frame : Bool) : NavAction :=
  if strStartswith url_str (scheme ++ "://") then
    NavAction.veto (extractCode url_str)
  else
    NavAction.delegate url_str nav_type is_main_frame

/-- One navigation-attempt event delivered by the browser engine. -/
structure NavEvent where
  url : String
  nav_type : Nat
  is_main_frame : Bool

/-- A run of the Redirect Interceptor: the engine delivers the
navigation events in order to `acceptNavigationRequest`; every veto
invokes `OAuthBrowser.show_oauth_popup` with the extracted code, so the
result is the sequence of captured codes of the run. -/
def processEvents (scheme : String) (events : List NavEvent) : List String :=
  events.filterMap (fun e =>
    match acceptNavigationRequest scheme e.url e.nav_type e.is_main_frame with
    | NavAction.veto code => some code
    | NavAction.delegate _ _ _ => none)

/-- Per-country entry of the downloaded configuration; `none` fields
model absent JSON keys. -/
structure CountryCfg where
  locale : Option String
  client_id : Option String
  deriving DecidableEq

/-- Per-brand entry of the downloaded configuration; `none` fields model
absent JSON keys. -/
structure BrandCfg where
  oauth_url : Option String
  scheme : Option String
  configs : Option (List (String × CountryCfg))
  deriving DecidableEq

/-- The downloaded configuration mapping, keyed by brand name, in JSON
object order. -/
abbrev Configs := List (String × BrandCfg)

/-- Python dictionary lookup `l[k]` as an option (a `KeyError` becomes
`none`). -/
def lookup {α : Type} (l : List (String × α)) (k : String) : Option α :=
  match l.find? (fun p => p.1 == k) with
  | some p => some p.2
  | none => none

/-- `BrandCountrySelector.__init__`:
`self.valid_brands = [b for b in configs if "configs" in configs[b]]`,
the brands offered in the brand combo box. -/
def valid_brands (configs : Configs) : List String :=
  (configs.map Prod.fst).filter (fun b =>
    match lookup configs b with
    | some cfg => cfg.configs.isSome
    | none => false)

/-- `BrandCountrySelector.update_countries(brand_name)`: the combo box
is cleared, then on success the brand's country codes are added in
`sorted` order; a `KeyError` leaves the box cleared.  `old_items` is the
country list displayed before the call. -/
def update_countries (configs : Configs) (brand_name : String)
    (old_items : List String) : List String :=
  let cleared : List String := []
  match lookup configs brand_name with
  | some cfg =>
    match cfg.configs with
    | some cc => cleared ++ List.insertionSort (· ≤ ·) (cc.map Prod.fst)
    | none => []
  | none => []

/-- Python `country.lower()` restricted to ASCII letters (the country
codes of the configuration are ASCII). -/
def asciiLower (s : String) : String :=
  String.mk (s.data.map Char.toLower)

/-- The f-string of `BrandCountrySelector.launch_browser` building the
authorization URL. -/
def build_auth_url (oauth_url client_id scheme country locale_code : String) : String :=
  oauth_url ++ "/am/oauth2/authorize?client_id=" ++ client_id ++
    "&response_type=code&redirect_uri=" ++ scheme ++ "://oauth2redirect/" ++
    asciiLower country ++ "&scope=openid%20profile%20email&locale=" ++ locale_code

/-- Outcome of `BrandCountrySelector.launch_browser`: on success an
`OAuthBrowser(auth_url, scheme)` window is shown and the selector is
closed; on a `KeyError` a dialog naming the missing key is shown and the
selector screen stays open, no browser window being created. -/
inductive LaunchResult where
  | browser (auth_url : String) (scheme : String)
  | missingKey (key : String)
  deriving DecidableEq

/-- `BrandCountrySelector.launch_browser`, with dictionary accesses in
source order: `configs[brand]`, `cfg["configs"][country]`,
`cfg["oauth_url"]`, `cfg["scheme"]`, `country_cfg["locale"]`,
`country_cfg["client_id"]`; the first failing access raises the
`KeyError` that names the missing key. -/
def launch_browser (configs : Configs) (brand country : String) : LaunchResult :=
  match lookup configs brand with
  | none => LaunchResult.missingKey brand
  | some cfg =>
    match cfg.configs with
    | none => LaunchResult.missingKey "configs"
    | some cc =>
      match lookup cc country with
      | none => LaunchResult.missingKey country
      | some country_cfg =>
        match cfg.oauth_url with
        | none => LaunchResult.missingKey "oauth_url"
        | some oauth_url =>
          match cfg.scheme with
          | none => LaunchResult.missingKey "scheme"
          | some scheme =>
            match country_cfg.locale with
            | none => LaunchResult.missingKey "locale"
            | some locale_code =>
              match country_cfg.client_id with
              | none => LaunchResult.missingKey "client_id"
              | some client_id =>
                LaunchResult.browser
                  (build_auth_url oauth_url client_id scheme country locale_code)
                  scheme

/-- Outcome of the `urlopen` plus `json.loads` body of
`download_configs`, supplied as input to the embedding. -/
inductive FetchOutcome where
  | success (data : Configs)
  | failure (err : String)

/-- Observable result of `download_configs`: either the parsed mapping
is returned, or (in the `except` branch) a critical error dialog is
shown and the process exits with the given status. -/
inductive DownloadResult where
  | returned (data : Configs)
  | fatalExit (dialog_shown : Bool) (exit_code : Nat)
  deriving DecidableEq

/-- `download_configs()`: the `try` body returns the parsed data; any
exception leads to `QMessageBox.critical` followed by `sys.exit(1)`. -/
def download_configs : FetchOutcome → DownloadResult
  | FetchOutcome.success d => DownloadResult.returned d
  | FetchOutcome.failure _ => DownloadResult.fatalExit true 1

/-- Formalisation of the specification's words for C2: the first value
of the query parameter `code` of the URL, defaulting to the empty string
when the parameter is absent. -/
def codeValues (q : List Char) (k : String) : List String :=
  (parse_qsl q).filterMap (fun p => if p.1 = k then some p.2 else none)

/-- The first value of the query parameter `code` (empty string when
there is none), the specification's description of the extracted code. -/
def spec_first_code_value (url_str : String) : String :=
  (codeValues (urlQuery url_str.data) "code").getD 0 ""

/-! ### Theorems about the Redirect Interceptor -/

/-- C1: for every configured scheme and candidate navigation URL, the
Redirect Interceptor vetoes the navigation (returns deny) if and only if
the URL starts with the case-sensitive scheme-plus-colon-slash-slash
string; every other URL is delegated unchanged to the default handler. -/
theorem claim_c1 (scheme u : String) (nt : Nat) (mf : Bool) :
    (acceptNavigationRequest scheme u nt mf = NavAction.veto (extractCode u) ↔
      strStartswith u (scheme ++ "://") = true) ∧
    (strStartswith u (scheme ++ "://") = false →
      acceptNavigationRequest scheme u nt mf = NavAction.delegate u nt mf) := by
  cases h : strStartswith u (scheme ++ "://") <;> simp [acceptNavigationRequest, h]

/-- Witness for C1 at a concrete non-matching URL. -/
theorem claim_c1_witness :
    acceptNavigationRequest "stellantis" "https://idpcvs.example.com/login" 0 true =
      NavAction.delegate "https://idpcvs.example.com/login" 0 true :=
  (claim_c1 "stellantis" "https://idpcvs.example.com/login" 0 true).2 (by decide)

/-- C10: within matching-scheme navigations, the veto decision and the
captured code do not depend on the navigation type or the main-frame
flag, so subframe navigations to the custom scheme are intercepted too. -/
theorem claim_c10 (scheme u : String) (nt nt' : Nat) (mf mf' : Bool)
    (h : strStartswith u (scheme ++ "://") = true) :
    acceptNavigationRequest scheme u nt mf = acceptNavigationRequest scheme u nt' mf' ∧
    acceptNavigationRequest scheme u nt false = NavAction.veto (extractCode u) := by
  simp [acceptNavigationRequest, h]

/-- Witness for C10 at a concrete matching URL with differing navigation
type and frame flag. -/
theorem claim_c10_witness :
    acceptNavigationRequest "stellantis" "stellantis://oauth2redirect/fr?code=ABC123&state=xyz" 0 true =
      acceptNavigationRequest "stellantis" "stellantis://oauth2redirect/fr?code=ABC123&state=xyz" 5 false ∧
    acceptNavigationRequest "stellantis" "stellantis://oauth2redirect/fr?code=ABC123&state=xyz" 0 false =
      NavAction.veto (extractCode "stellantis://oauth2redirect/fr?code=ABC123&state=xyz") :=
  claim_c10 "stellantis" "stellantis://oauth2redirect/fr?code=ABC123&state=xyz" 0 5 true false
    (by decide)

/-- C3 counterexample: the interceptor holds no state, so a run with two
matching navigation events produces two captures, refuting the claim
that no later event can cause a second capture. -/
theorem claim_c3_counterexample :
    ¬ ((processEvents "stellantis"
        [⟨"stellantis://oauth2redirect/fr?code=ABC123&state=xyz", 0, true⟩,
         ⟨"stellantis://oauth2redirect/fr?code=ABC123&state=xyz", 0, true⟩]).length ≤ 1) := by
  decide

/-- C3 amended: the interceptor is stateless; the captures of a run are
exactly the matching-scheme events, in order, each contributing its
extracted code, so it fires once per matching navigation event (exactly
once only in runs with exactly one matching event). -/
theorem claim_c3_amended (scheme : String) (events : List NavEvent) :
    processEvents scheme events =
      (events.filter (fun e => strStartswith e.url (scheme ++ "://"))).map
        (fun e => extractCode e.url) := by
  induction events with
  | nil => rfl
  | cons e es ih =>
    cases h : strStartswith e.url (scheme ++ "://")
    · have he : acceptNavigationRequest scheme e.url e.nav_type e.is_main_frame =
          NavAction.delegate e.url e.nav_type e.is_main_frame := by
        simp [acceptNavigationRequest, h]
      simp only [processEvents, List.filterMap_cons, he, List.filter_cons, h] at ih ⊢
      simpa using ih
    · have he : acceptNavigationRequest scheme e.url e.nav_type e.is_main_frame =
          NavAction.veto (extractCode e.url) := by
        simp [acceptNavigationRequest, h]
      simp only [processEvents, List.filterMap_cons, he, List.filter_cons, h] at ih ⊢
      simpa using ih

/-! ### Theorems about the Selector Screen and Config Loader -/

/-- C4: for every (brand, country) pair resolvable in the loaded config,
the constructed authorization URL equals exactly the template with that
pair's client id and locale, the brand's scheme, and the lower-cased
country code in the redirect URI path. -/
theorem claim_c4 (configs : Configs) (brand country : String) (cfg : BrandCfg)
    (cc : List (String × CountryCfg)) (country_cfg : CountryCfg)
    (oauth_url scheme locale_code client_id : String)
    (h1 : lookup configs brand = some cfg)
    (h2 : cfg.configs = some cc)
    (h3 : lookup cc country = some country_cfg)
    (h4 : cfg.oauth_url = some oauth_url)
    (h5 : cfg.scheme = some scheme)
    (h6 : country_cfg.locale = some locale_code)
    (h7 : country_cfg.client_id = some client_id) :
    launch_browser configs brand country = LaunchResult.browser
      (oauth_url ++ "/am/oauth2/authorize?client_id=" ++ client_id ++
        "&response_type=code&redirect_uri=" ++ scheme ++ "://oauth2redirect/" ++
        asciiLower country ++ "&scope=openid%20profile%20email&locale=" ++ locale_code)
      scheme := by
  simp [launch_browser, h1, h2, h3, h4, h5, h6, h7, build_auth_url]

/-- Witness for C4 at a concrete configuration. -/
theorem claim_c4_witness :
    launch_browser
      [("Peugeot",
        { oauth_url := some "https://idpcvs.peugeot.com", scheme := some "mymap",
          configs := some [("FR", { locale := some "fr-FR", client_id := some "clientidFR" })] })]
      "Peugeot" "FR" =
      LaunchResult.browser
        ("https://idpcvs.peugeot.com" ++ "/am/oauth2/authorize?client_id=" ++ "clientidFR" ++
          "&response_type=code&redirect_uri=" ++ "mymap" ++ "://oauth2redirect/" ++
          asciiLower "FR" ++ "&scope=openid%20profile%20email&locale=" ++ "fr-FR")
        "mymap" :=
  claim_c4 _ "Peugeot" "FR" _ _ _ _ _ _ _ rfl rfl rfl rfl rfl rfl rfl

/-- C6: a fetch failure makes `download_configs` fail fatally, showing
the error dialog and exiting with status 1, never returning data; a
successful fetch returns the parsed mapping unchanged. -/
theorem claim_c6 (o : FetchOutcome) :
    (∀ e, o = FetchOutcome.failure e →
      download_configs o = DownloadResult.fatalExit true 1 ∧
      ∀ d, download_configs o ≠ DownloadResult.returned d) ∧
    (∀ d, o = FetchOutcome.success d → download_configs o = DownloadResult.returned d) := by
  constructor
  · rintro e rfl
    exact ⟨rfl, fun d h => DownloadResult.noConfusion h⟩
  · rintro d rfl
    rfl

/-- Witness for C6 at a concrete failure and a concrete success. -/
theorem claim_c6_witness :
    download_configs (FetchOutcome.failure "timeout") = DownloadResult.fatalExit true 1 ∧
    download_configs (FetchOutcome.success []) = DownloadResult.returned [] :=
  ⟨((claim_c6 (FetchOutcome.failure "timeout")).1 "timeout" rfl).1,
   (claim_c6 (FetchOutcome.success [])).2 [] rfl⟩

/-- C7: whichever expected configuration key is the first to be absent
for the selected brand and country, `launch_browser` reports exactly
that key and creates no browser window (its result is a `missingKey`
dialog, never a `browser` window, so the selector stays open). -/
theorem claim_c7 (configs : Configs) (brand country : String) :
    (lookup configs brand = none →
      launch_browser configs brand country = LaunchResult.missingKey brand) ∧
    (∀ cfg, lookup configs brand = some cfg → cfg.configs = none →
      launch_browser configs brand country = LaunchResult.missingKey "configs") ∧
    (∀ cfg cc, lookup configs brand = some cfg → cfg.configs = some cc →
      lookup cc country = none →
      launch_browser configs brand country = LaunchResult.missingKey country) ∧
    (∀ cfg cc country_cfg, lookup configs brand = some cfg → cfg.configs = some cc →
      lookup cc country = some country_cfg → cfg.oauth_url = none →
      launch_browser configs brand country = LaunchResult.missingKey "oauth_url") ∧
    (∀ cfg cc country_cfg oauth_url, lookup configs brand = some cfg →
      cfg.configs = some cc → lookup cc country = some country_cfg →
      cfg.oauth_url = some oauth_url → cfg.scheme = none →
      launch_browser configs brand country = LaunchResult.missingKey "scheme") ∧
    (∀ cfg cc country_cfg oauth_url scheme, lookup configs brand = some cfg →
      cfg.configs = some cc → lookup cc country = some country_cfg →
      cfg.oauth_url = some oauth_url → cfg.scheme = some scheme →
      country_cfg.locale = none →
      launch_browser configs brand country = LaunchResult.missingKey "locale") ∧
    (∀ cfg cc country_cfg oauth_url scheme locale_code, lookup configs brand = some cfg →
      cfg.configs = some cc → lookup cc country = some country_cfg →
      cfg.oauth_url = some oauth_url → cfg.scheme = some scheme →
      country_cfg.locale = some locale_code → country_cfg.client_id = none →
      launch_browser configs brand country = LaunchResult.missingKey "client_id") ∧
    (∀ k, launch_browser configs brand country = LaunchResult.missingKey k →
      ∀ a s, launch_browser configs brand country ≠ LaunchResult.browser a s) := by
  refine ⟨?_, ?_, ?_, ?_, ?_, ?_, ?_, ?_⟩
  · intro h
    simp [launch_browser, h]
  · intro cfg h1 h2
    simp [launch_browser, h1, h2]
  · intro cfg cc h1 h2 h3
    simp [launch_browser, h1, h2, h3]
  · intro cfg cc country_cfg h1 h2 h3 h4
    simp [launch_browser, h1, h2, h3, h4]
  · intro cfg cc country_cfg oauth_url h1 h2 h3 h4 h5
    simp [launch_browser, h1, h2, h3, h4, h5]
  · intro cfg cc country_cfg oauth_url scheme h1 h2 h3 h4 h5 h6
    simp [launch_browser, h1, h2, h3, h4, h5, h6]
  · intro cfg cc country_cfg oauth_url scheme locale_code h1 h2 h3 h4 h5 h6 h7
    simp [launch_browser, h1, h2, h3, h4, h5, h6, h7]
  · intro k hk a s hb
    rw [hk] at hb
    exact LaunchResult.noConfusion hb

/-- Witness for C7: a missing brand entry and a missing `oauth_url` key
are reported by name. -/
theorem claim_c7_witness :
    launch_browser [] "Peugeot" "FR" = LaunchResult.missingKey "Peugeot" :=
  (claim_c7 [] "Peugeot" "FR").1 rfl

/-! ### Lemmas connecting the parse_qs dictionary with the pair list -/

/-- Lookup in the empty dictionary yields the default. -/
theorem dictGet_nil (k : String) (dflt : List String) :
    dictGet [] k dflt = dflt := rfl

/-- Lookup steps over the head entry of the dictionary. -/
theorem dictGet_cons (k0 : String) (vs : List String)
    (d : List (String × List String)) (k : String) (dflt : List String) :
    dictGet ((k0, vs) :: d) k dflt = if k0 = k then vs else dictGet d k dflt := by
  by_cases h : k0 = k
  · simp [dictGet, List.find?, h]
  · have hb : (k0 == k) = false := by simp [h]
    simp [dictGet, List.find?, hb, h]

/-- Inserting a pair appends its value to the key's entry of the
dictionary. -/
theorem dictGet_qsInsert (d : List (String × List String)) (k k' v : String) :
    dictGet (qsInsert d k' v) k [] =
      if k' = k then dictGet d k [] ++ [v] else dictGet d k [] := by
  induction d with
  | nil =>
    by_cases h : k' = k <;>
      simp [qsInsert, dictGet_cons, dictGet_nil, h]
  | cons p ps ih =>
    obtain ⟨k0, vs⟩ := p
    by_cases h0 : k0 = k'
    · subst h0
      rw [show qsInsert ((k0, vs) :: ps) k0 v = (k0, vs ++ [v]) :: ps by simp [qsInsert]]
      by_cases h : k0 = k
      · subst h
        simp [dictGet_cons]
      · simp [dictGet_cons, h]
    · have hq : qsInsert ((k0, vs) :: ps) k' v = (k0, vs) :: qsInsert ps k' v := by
        have hb0 : (k0 == k') = false := by simp [h0]
        simp [qsInsert, hb0]
      simp only [hq, dictGet_cons]
      by_cases h : k0 = k
      · subst h
        have hk' : ¬ k' = k0 := fun hh => h0 hh.symm
        simp [hk']
      · simp [h, ih]

/-- The values stored for a key after folding the pair list into the
dictionary are exactly the values of that key in the pair list, in
order. -/
theorem dictGet_parse_foldl (pairs : List (String × String))
    (d : List (String × List String)) (k : String) :
    dictGet (pairs.foldl (fun d p => qsInsert d p.1 p.2) d) k [] =
      dictGet d k [] ++ pairs.filterMap (fun p => if p.1 = k then some p.2 else none) := by
  induction pairs generalizing d with
  | nil => simp
  | cons p ps ih =>
    simp only [List.foldl_cons, List.filterMap_cons]
    rw [ih, dictGet_qsInsert]
    by_cases h : p.1 = k <;> simp [h]

/-- Every entry created by `qsInsert` holds a nonempty value list. -/
theorem qsInsert_entries_ne_nil (d : List (String × List String)) (k v : String)
    (hd : ∀ p ∈ d, p.2 ≠ []) : ∀ p ∈ qsInsert d k v, p.2 ≠ [] := by
  induction d with
  | nil =>
    intro p hp
    simp [qsInsert] at hp
    simp [hp]
  | cons q qs ih =>
    obtain ⟨k0, vs⟩ := q
    intro p hp
    by_cases h : k0 = k
    · simp only [qsInsert, h, beq_self_eq_true, if_true, List.mem_cons] at hp
      rcases hp with hp | hp
      · simp [hp]
      · exact hd p (List.mem_cons_of_mem _ hp)
    · have hb : (k0 == k) = false := by simp [h]
      simp only [qsInsert, hb, Bool.false_eq_true, if_false, List.mem_cons] at hp
      rcases hp with hp | hp
      · subst hp
        exact hd (k0, vs) (List.mem_cons_self _ _)
      · exact ih (fun q hq => hd q (List.mem_cons_of_mem _ hq)) p hp

/-- Every entry of the dictionary built by `parse_qs`'s fold holds a
nonempty value list. -/
theorem parse_foldl_entries_ne_nil (pairs : List (String × String))
    (d : List (String × List String)) (hd : ∀ p ∈ d, p.2 ≠ []) :
    ∀ p ∈ pairs.foldl (fun d q => qsInsert d q.1 q.2) d, p.2 ≠ [] := by
  induction pairs generalizing d with
  | nil => exact hd
  | cons q qs ih =>
    simp only [List.foldl_cons]
    exact ih _ (qsInsert_entries_ne_nil d q.1 q.2 hd)

/-- In a dictionary whose entries all hold nonempty value lists, a key
whose value list computes to empty is absent. -/
theorem find?_eq_none_of_dictGet_nil (d : List (String × List String)) (k : String)
    (hd : ∀ p ∈ d, p.2 ≠ []) (h : dictGet d k [] = []) :
    d.find? (fun p => p.1 == k) = none := by
  cases hf : d.find? (fun p => p.1 == k) with
  | none => rfl
  | some p =>
    have hp : p ∈ d := List.mem_of_find?_eq_some hf
    have he : dictGet d k [] = p.2 := by simp [dictGet, hf]
    exact absurd (he.symm.trans h) (hd p hp)

/-- The code extracted by `acceptNavigationRequest` is the first value
of the query parameter `code` in the parsed pair list, the empty string
when the parameter is absent. -/
theorem extractCode_eq_spec (u : String) :
    extractCode u = spec_first_code_value u := by
  have hfold : dictGet (parse_qs (urlQuery u.data)) "code" [] =
      (parse_qsl (urlQuery u.data)).filterMap
        (fun p => if p.1 = "code" then some p.2 else none) := by
    have h := dictGet_parse_foldl (parse_qsl (urlQuery u.data)) [] "code"
    rw [dictGet_nil, List.nil_append] at h
    exact h
  simp only [extractCode, spec_first_code_value, codeValues]
  cases hf : (parse_qs (urlQuery u.data)).find? (fun p => p.1 == "code") with
  | none =>
    have h0 : dictGet (parse_qs (urlQuery u.data)) "code" [] = [] := by
      simp [dictGet, hf]
    have hcv : (parse_qsl (urlQuery u.data)).filterMap
        (fun p => if p.1 = "code" then some p.2 else none) = [] := by
      rw [← hfold]
      exact h0
    have hdg : dictGet (parse_qs (urlQuery u.data)) "code" [""] = [""] := by
      simp [dictGet, hf]
    rw [hcv, hdg]
    rfl
  | some p =>
    have h2 : dictGet (parse_qs (urlQuery u.data)) "code" [] = p.2 := by
      simp [dictGet, hf]
    have hcv : (parse_qsl (urlQuery u.data)).filterMap
        (fun p => if p.1 = "code" then some p.2 else none) = p.2 := by
      rw [← hfold]
      exact h2
    have hdg : dictGet (parse_qs (urlQuery u.data)) "code" [""] = p.2 := by
      simp [dictGet, hf]
    rw [hcv, hdg]

/-- C2: for every intercepted matching-scheme URL the extracted code is
the first value of the query parameter `code`; a URL whose parsed
parameters lack `code` yields the empty string (a normal result, not an
error); and the concrete redirect URL of the specification yields
exactly the code ABC123. -/
theorem claim_c2 (scheme u : String) (nt : Nat) (mf : Bool) :
    (strStartswith u (scheme ++ "://") = true →
      acceptNavigationRequest scheme u nt mf = NavAction.veto (spec_first_code_value u)) ∧
    ((parse_qs (urlQuery u.data)).find? (fun p => p.1 == "code") = none →
      extractCode u = "") ∧
    acceptNavigationRequest "stellantis"
      "stellantis://oauth2redirect/fr?code=ABC123&state=xyz" nt mf =
      NavAction.veto "ABC123" := by
  refine ⟨?_, ?_, ?_⟩
  · intro h
    rw [← extractCode_eq_spec]
    simp [acceptNavigationRequest, h]
  · intro h
    simp [extractCode, dictGet, h]
  · have h : strStartswith "stellantis://oauth2redirect/fr?code=ABC123&state=xyz"
        ("stellantis" ++ "://") = true := by decide
    simp only [acceptNavigationRequest, h, if_true]
    decide

/-- Witness for C2 at the specification's concrete redirect URL. -/
theorem claim_c2_witness :
    acceptNavigationRequest "stellantis"
      "stellantis://oauth2redirect/fr?code=ABC123&state=xyz" 0 true =
      NavAction.veto
        (spec_first_code_value "stellantis://oauth2redirect/fr?code=ABC123&state=xyz") :=
  (claim_c2 "stellantis" "stellantis://oauth2redirect/fr?code=ABC123&state=xyz" 0 true).1
    (by decide)

/-- A field consisting of a name (without equals sign) directly followed
by an equals sign and nothing else has an empty value. -/
theorem splitOnce_append_last (name : List Char) (h : '=' ∉ name) :
    splitOnce '=' (name ++ ['=']) = some (name, []) := by
  induction name with
  | nil => rfl
  | cons c cs ih =>
    simp only [List.mem_cons, not_or] at h
    obtain ⟨h1, h2⟩ := h
    have hc : (c == '=') = false := by
      simp only [beq_eq_false_iff_ne]
      exact fun hh => h1 hh.symm
    simp [splitOnce, List.cons_append, hc, ih h2]

/-- C9: a query field whose value is empty is dropped by the query
parser exactly like a missing field, so a matching-scheme URL carrying
`code=` with an empty value yields the empty extracted code, identical
to the absent-parameter case. -/
theorem claim_c9 (name : List Char) (fields : List (List Char)) (h : '=' ∉ name) :
    List.filterMap parsePair ((name ++ ['=']) :: fields) =
      List.filterMap parsePair fields ∧
    acceptNavigationRequest "s" "s://oauth2redirect/fr?code=&state=x" 0 true =
      NavAction.veto "" ∧
    acceptNavigationRequest "s" "s://oauth2redirect/fr?state=x" 0 true =
      NavAction.veto "" := by
  refine ⟨?_, by decide, by decide⟩
  have hsplit := splitOnce_append_last name h
  have hne : (name ++ ['=']).isEmpty = false := by
    cases name <;> rfl
  have hpp : parsePair (name ++ ['=']) = none := by
    simp [parsePair, hne, hsplit]
  simp [List.filterMap_cons, hpp]

/-- Witness for C9 with the field name `code`. -/
theorem claim_c9_witness :
    List.filterMap parsePair
      ((['c', 'o', 'd', 'e'] ++ ['=']) :: [['s', 't', 'a', 't', 'e', '=', 'x']]) =
      List.filterMap parsePair [['s', 't', 'a', 't', 'e', '=', 'x']] :=
  (claim_c9 ['c', 'o', 'd', 'e'] [['s', 't', 'a', 't', 'e', '=', 'x']] (by decide)).1

/-! ### Theorems about brand filtering and country sorting -/

/-- A key is in the mapped key list exactly when its lookup succeeds. -/
theorem lookup_isSome_iff {α : Type} (l : List (String × α)) (k : String) :
    (lookup l k).isSome = true ↔ k ∈ l.map Prod.fst := by
  induction l with
  | nil => simp [lookup]
  | cons p ps ih =>
    by_cases h : p.1 = k
    · simp [lookup, List.find?, h]
    · have hb : (p.1 == k) = false := by simp [h]
      simp only [List.map_cons, List.mem_cons]
      rw [show lookup (p :: ps) k = lookup ps k by simp [lookup, List.find?, hb]]
      constructor
      · intro hs
        exact Or.inr (ih.mp hs)
      · intro hm
        rcases hm with hm | hm
        · exact absurd hm.symm h
        · exact ih.mpr hm

/-- C5 counterexample: a brand whose `configs` mapping is present but
empty (zero countries) still appears in `valid_brands`, refuting the
claim that brands with zero countries never appear. -/
theorem claim_c5_counterexample :
    ¬ (∀ (configs : Configs) (b : String), b ∈ valid_brands configs →
        ∃ cfg cc, lookup configs b = some cfg ∧ cfg.configs = some cc ∧ cc ≠ []) := by
  intro hclaim
  obtain ⟨cfg, cc, h1, h2, h3⟩ :=
    hclaim [("X", { oauth_url := none, scheme := none, configs := some [] })] "X"
      (by decide)
  have e : cfg =
      { oauth_url := none, scheme := none,
        configs := some ([] : List (String × CountryCfg)) } := by
    have hL : lookup
        [("X", ({ oauth_url := none, scheme := none, configs := some [] } : BrandCfg))]
        "X" =
        some { oauth_url := none, scheme := none, configs := some [] } := rfl
    rw [hL] at h1
    exact (Option.some.inj h1).symm
  rw [e] at h2
  have h2' : (some ([] : List (String × CountryCfg))) = some cc := h2
  cases h2'
  exact h3 rfl

/-- C5 amended: a brand appears in the selectable brand list if and only
if its configuration entry contains the key `configs` (of whatever
content); in particular every brand with at least one country appears,
but a brand with an empty country mapping appears as well. -/
theorem claim_c5_amended (configs : Configs) (b : String) :
    b ∈ valid_brands configs ↔
      ∃ cfg, lookup configs b = some cfg ∧ cfg.configs.isSome = true := by
  simp only [valid_brands, List.mem_filter]
  constructor
  · rintro ⟨hmem, hp⟩
    cases hc : lookup configs b with
    | none => simp [hc] at hp
    | some cfg =>
      refine ⟨cfg, rfl, ?_⟩
      simpa [hc] using hp
  · rintro ⟨cfg, hc, hs⟩
    refine ⟨?_, by simp [hc, hs]⟩
    exact (lookup_isSome_iff configs b).mp (by simp [hc])

/-- Witness for C5 amended: a brand with one country is selectable. -/
theorem claim_c5_amended_witness :
    "Peugeot" ∈ valid_brands
      [("Peugeot",
        { oauth_url := none, scheme := none,
          configs := some [("FR", { locale := none, client_id := none })] })] :=
  (claim_c5_amended _ "Peugeot").mpr
    ⟨{ oauth_url := none, scheme := none,
       configs := some [("FR", { locale := none, client_id := none })] },
     rfl, rfl⟩

/-- C8: for a selected brand whose entry has a `configs` key, the
displayed country list is that brand's country codes sorted in
lexicographic order (a sorted permutation of the keys); without a
usable entry the list is empty; and the result never depends on the
previously displayed items, which are cleared first. -/
theorem claim_c8 (configs : Configs) (brand : String) (old_items : List String) :
    (∀ cfg cc, lookup configs brand = some cfg → cfg.configs = some cc →
      update_countries configs brand old_items =
        List.insertionSort (· ≤ ·) (cc.map Prod.fst) ∧
      (update_countries configs brand old_items).Sorted (· ≤ ·) ∧
      (update_countries configs brand old_items).Perm (cc.map Prod.fst)) ∧
    (∀ cfg, lookup configs brand = some cfg → cfg.configs = none →
      update_countries configs brand old_items = []) ∧
    (lookup configs brand = none → update_countries configs brand old_items = []) ∧
    (∀ old', update_countries configs brand old' = update_countries configs brand old_items) := by
  refine ⟨?_, ?_, ?_, ?_⟩
  · intro cfg cc h1 h2
    have he : update_countries configs brand old_items =
        List.insertionSort (· ≤ ·) (cc.map Prod.fst) := by
      simp [update_countries, h1, h2]
    refine ⟨he, ?_, ?_⟩
    · rw [he]
      exact List.sorted_insertionSort _ _
    · rw [he]
      exact List.perm_insertionSort _ _
  · intro cfg h1 h2
    simp [update_countries, h1, h2]
  · intro h
    simp [update_countries, h]
  · intro old'
    rfl

/-- Witness for C8 at a concrete two-country brand. -/
theorem claim_c8_witness :
    update_countries
      [("Peugeot",
        { oauth_url := none, scheme := none,
          configs := some [("IT", { locale := none, client_id := none }),
                           ("FR", { locale := none, client_id := none })] })]
      "Peugeot" ["DE"] =
      List.insertionSort (· ≤ ·)
        (([("IT", ({ locale := none, client_id := none } : CountryCfg)),
           ("FR", { locale := none, client_id := none })]).map Prod.fst) :=
  ((claim_c8
    [("Peugeot",
      { oauth_url := none, scheme := none,
        configs := some [("IT", { locale := none, client_id := none }),
                         ("FR", { locale := none, client_id := none })] })]
    "Peugeot" ["DE"]).1
    { oauth_url := none, scheme := none,
      configs := some [("IT", { locale := none, client_id := none }),
                       ("FR", { locale := none, client_id := none })] }
    [("IT", { locale := none, client_id := none }),
     ("FR", { locale := none, client_id := none })]
    rfl rfl).1

end OAuthHelper
